import Mathlib

/-!
Verification of the pipeline copy engine of the `command` package
(`Copy`, `copyError`, `cmdString`, `ReadAll` and the `filter` adapter).

The Go code runs one goroutine per pipeline stage; each stage performs
`io.Copy(w, r)` between caller-supplied streams, closes its writer when it
is an `io.Closer`, records a `copyResult` at its fixed index of a shared
slice, and reports its byte count on a channel when its transfer succeeded.
The behaviour of each caller-supplied stream is external to the package, so
in this embedding the result of each stage's `io.Copy` call (byte count and
error) and the result of each writer's `Close` call are parameters; the
aggregation performed by `Copy` itself is embedded faithfully.  Since each
goroutine writes a distinct index of the result slice and the byte-count
channel is drained by a single summing goroutine that finishes before `Copy`
returns, the concurrent execution is equivalent to processing the stages in
pipeline order, which is how the embedding proceeds.  Byte counts are Go
`int64` values; the claims under study do not involve overflow, so they are
modelled as `Int`.
-/

/-- A Go error value as produced by this code: either an atomic error
(`errors.New` and the like, identified by its message) or the wrapper built
by `errors.Join`.  In this codebase `errors.Join` is only ever applied to
exactly two arguments (`errors.Join(err, closeErr)` in `Copy`), so the
joined node holds the one or two arguments that were non-nil. -/
inductive GoError where
  | base (msg : String)
  | join1 (a : GoError)
  | join2 (a b : GoError)
deriving Repr, DecidableEq

/-- Embeds `errors.Join(a, b)`: nil when both arguments are nil, otherwise a
join node wrapping the non-nil arguments in order. -/
def errorsJoin : Option GoError → Option GoError → Option GoError
  | none, none => none
  | some a, none => some (.join1 a)
  | none, some b => some (.join1 b)
  | some a, some b => some (.join2 a b)

/-- The message of a Go error: `joinError.Error` concatenates the messages
of the joined errors separated by a newline. -/
def GoError.msg : GoError → String
  | .base s => s
  | .join1 a => a.msg
  | .join2 a b => a.msg ++ "\n" ++ b.msg

/-- Embeds `errors.Is(e, t)` for the error values of this model: an error
matches the target when it equals it, or when some error reached through
`Unwrap() []error` (the join nodes unwrap to their children) matches it. -/
def errIs : GoError → GoError → Bool
  | .base s, t => decide (GoError.base s = t)
  | .join1 a, t => decide (GoError.join1 a = t) || errIs a t
  | .join2 a b, t => decide (GoError.join2 a b = t) || errIs a t || errIs b t

/-- The identity of a stream as seen by `cmdString`: its `String()` result
when it implements `fmt.Stringer`, and the textual name of its dynamic type
for the `%T` fallback. -/
structure StreamId where
  str : Option String
  tyName : String
deriving Repr, DecidableEq

/-- Embeds `cmdString`: the stream's `String()` when it is a
`fmt.Stringer`, else `<` its type name `>`. -/
def cmdString (v : StreamId) : String :=
  match v.str with
  | some s => s
  | none => "<" ++ v.tyName ++ ">"

/-- The write end of a stream as `Copy` sees it: whether the dynamic type
assertion `w.(io.Closer)` succeeds, and the error `Close()` returns when it
does (the stream's behaviour, external to the package). -/
structure WEnd where
  closer : Bool
  closeErr : Option GoError
deriving Repr, DecidableEq

/-- An intermediate filter stage (`io.ReadWriter`): its identity as a
reader, and its write end. -/
structure RWStream where
  id : StreamId
  w : WEnd
deriving Repr, DecidableEq

/-- Embeds `copyResult`: a stage's descriptor and combined error. -/
structure copyResult where
  cmd : String
  err : Option GoError
deriving Repr, DecidableEq

/-- Embeds `copyError`: the ordered slice of per-stage results.  The mutex
guarding the slice is a concurrency artifact with no functional content
(each stage writes a distinct index) and is not modelled. -/
structure copyError where
  results : List copyResult
deriving Repr, DecidableEq

/-- Embeds `copyError.set`: writes a result at the given offset. -/
def copyError.set (e : copyError) (offset : Nat) (result : copyResult) :
    copyError :=
  ⟨e.results.set offset result⟩

/-- Embeds `copyError.Unwrap`: the non-nil per-stage errors, in pipeline
order. -/
def copyError.Unwrap (e : copyError) : List GoError :=
  e.results.filterMap (·.err)

/-- Embeds `strings.ReplaceAll(s, "\n", "\n\t")` on the character list of a
string; with a single-character pattern, `ReplaceAll` is exactly the
character-wise substitution. -/
def replaceNlTabL : List Char → List Char
  | [] => []
  | c :: r =>
    if c = '\n' then '\n' :: '\t' :: replaceNlTabL r
    else c :: replaceNlTabL r

/-- `strings.ReplaceAll(s, "\n", "\n\t")` as a string function. -/
def goReplaceNlTab (s : String) : String :=
  ⟨replaceNlTabL s.data⟩

/-- Embeds `copyError.Error`: each stage renders as its descriptor followed
by `"\n\t"` and its error message with every embedded newline replaced by a
newline and a tab, or by `"\n\t<success>"` when the stage had no error; the
parts are joined by `"\n\n"` (`strings.Join(parts, "\n\n")`). -/
def copyError.Error (e : copyError) : String :=
  String.intercalate "\n\n" <| e.results.map fun result =>
    match result.err with
    | some err => result.cmd ++ "\n\t" ++ goReplaceNlTab err.msg
    | none => result.cmd ++ "\n\t<success>"

/-- Embeds `errors.Is(err, target)` when `err` is the `*copyError` returned
by `Copy`: the `*copyError` itself never equals an atomic target, and `Is`
then recurses into each error of `Unwrap() []error`. -/
def copyErrIs (e : copyError) (target : GoError) : Bool :=
  e.Unwrap.any fun u => errIs u target

/-- The default value filling the slice allocated by
`make([]copyResult, len(fil)+1)` before the stages write into it. -/
def zeroResult : copyResult := ⟨"", none⟩

/-- The reader of stage `idx`: the source for stage 0 (the loop iteration
with `i = -1`), filter `idx - 1` otherwise (`r = fil[i]`). -/
def stageReader (src : StreamId) (fil : List RWStream) (idx : Nat) :
    StreamId :=
  if idx = 0 then src else (fil.getD (idx - 1) ⟨⟨none, ""⟩, ⟨false, none⟩⟩).id

/-- The write end of stage `idx`: the destination for the last stage
(`i == len(fil)-1`), the next filter's write end otherwise
(`w = fil[i+1]`). -/
def stageWEnd (dst : WEnd) (fil : List RWStream) (idx : Nat) : WEnd :=
  if idx = fil.length then dst else (fil.getD idx ⟨⟨none, ""⟩, ⟨false, none⟩⟩).w

/-- What one stage's goroutine does, beyond the byte transfer itself:
the `copyResult` it records, the byte count it sends on the `count` channel
(only when its `io.Copy` returned a nil error), and whether it invoked
`Close` on its writer (it does exactly when the `w.(io.Closer)` type
assertion succeeds).  `xfer idx` is the pair `(n, err)` returned by stage
`idx`'s `io.Copy(w, r)` call, determined by the caller-supplied streams. -/
structure StageRun where
  res : copyResult
  counted : Option Int
  closedW : Bool
deriving Repr, DecidableEq

/-- Runs stage `idx`: `closeErr` is nil unless the writer is an
`io.Closer`, the recorded result joins the transfer error with the close
error, and the byte count is reported only on a nil transfer error. -/
def runStage (dst : WEnd) (src : StreamId) (fil : List RWStream)
    (xfer : Nat → Int × Option GoError) (idx : Nat) : StageRun :=
  let n := (xfer idx).1
  let err := (xfer idx).2
  let we := stageWEnd dst fil idx
  let closeErr := if we.closer then we.closeErr else none
  { res := ⟨cmdString (stageReader src fil idx), errorsJoin err closeErr⟩
    counted := if err = none then some n else none
    closedW := we.closer }

/-- The result slice after every stage has run: allocated with
`len(fil)+1` zero entries, then stage `idx` performs
`results.set(i+1, ...)` at its own index `idx = i+1`. -/
def copyResults (dst : WEnd) (src : StreamId) (fil : List RWStream)
    (xfer : Nat → Int × Option GoError) : copyError :=
  (List.range (fil.length + 1)).foldl
    (fun acc idx => acc.set idx (runStage dst src fil xfer idx).res)
    ⟨List.replicate (fil.length + 1) zeroResult⟩

/-- The total delivered on the `total` channel: the summing goroutine adds
every value received on `count`, i.e. the byte count of every stage whose
transfer succeeded. -/
def copyTotal (dst : WEnd) (src : StreamId) (fil : List RWStream)
    (xfer : Nat → Int × Option GoError) : Int :=
  (List.range (fil.length + 1)).foldl
    (fun acc idx =>
      match (runStage dst src fil xfer idx).counted with
      | some n => acc + n
      | none => acc)
    0

/-- Embeds `Copy(dst, src, fil...)`.  `g.Wait()` returns a non-nil error
exactly when some stage's `io.Copy` returned a non-nil error (each
goroutine returns its transfer error; the deferred close does not change
it), and in that case `Copy` replaces it with the `*copyError` holding all
results.  The returned count is always the summed total. -/
def Copy (dst : WEnd) (src : StreamId) (fil : List RWStream)
    (xfer : Nat → Int × Option GoError) : Int × Option copyError :=
  let gErr := (List.range (fil.length + 1)).any fun idx => (xfer idx).2.isSome
  (copyTotal dst src fil xfer,
    if gErr then some (copyResults dst src fil xfer) else none)

/-- The number of bytes the destination actually receives: the bytes the
final stage's `io.Copy` reports written to `dst`. -/
def destReceived (fil : List RWStream)
    (xfer : Nat → Int × Option GoError) : Int :=
  (xfer fil.length).1

/-- Modelled from the spec: the `Buffer` command handle wrapped by a
`filter` and the `ErrReadOnly` error value are declared outside the
provided sources.  Per the spec, a handle exposes a readable output and
optionally a writable, closable input (`WriteBuffer`); only the write-side
capability is relevant to the claims.  `write` is `some` exactly when the
dynamic type assertion `buf.(WriteBuffer)` succeeds, giving the handle's
`Write` behaviour; `closeErr` is what its `Close` returns. -/
structure Buffer where
  write : Option (List UInt8 → Nat × Option GoError)
  closeErr : Option GoError

/-- Modelled from the spec: `ErrReadOnly`, the error for writing to a
stream that does not support writing; an atomic error value. -/
def ErrReadOnly : GoError := .base "command is read-only"

/-- Embeds `type filter struct { buf Buffer }`. -/
structure filter where
  buf : Buffer

/-- Embeds `filter.Write`: delegates to the handle when it is a
`WriteBuffer`, else fails with `ErrReadOnly` and zero bytes written. -/
def filter.Write (f : filter) (p : List UInt8) : Nat × Option GoError :=
  match f.buf.write with
  | some wb => wb p
  | none => (0, some ErrReadOnly)

/-- Embeds `filter.Close`: delegates to the handle's `Close` when it is a
`WriteBuffer`, else a no-op returning nil. -/
def filter.Close (f : filter) : Option GoError :=
  match f.buf.write with
  | some _ => f.buf.closeErr
  | none => none

/-- The observable outcome of `filter.ReadFrom`: its two return values,
plus whether it invoked `Close` on the handle's writable input. -/
structure ReadFromOut where
  n : Int
  err : Option GoError
  closedInput : Bool
deriving Repr

/-- Embeds `filter.ReadFrom(src)`.  `copyOut` is the pair returned by its
`io.Copy(wb, src)` call, determined by the source and the handle.  When the
handle is not a `WriteBuffer` it returns `(0, ErrReadOnly)` without
closing; otherwise it copies, then always closes the input, and reports the
close error only when the copy error was nil. -/
def filter.ReadFrom (f : filter) (copyOut : Int × Option GoError) :
    ReadFromOut :=
  match f.buf.write with
  | none => ⟨0, some ErrReadOnly, false⟩
  | some _ =>
    let n := copyOut.1
    let err := copyOut.2
    let closeErr := f.buf.closeErr
    ⟨n, match err with | some e => some e | none => closeErr, true⟩

/-- Embeds `strings.TrimRight(s, "\r\n")` on a character list: removes the
trailing run of characters belonging to the cutset. -/
def isCRLF (c : Char) : Bool := c = '\r' || c = '\n'

/-- `strings.TrimRight(s, "\r\n")`. -/
def goTrimRightCRLF (s : String) : String :=
  ⟨(s.data.reverse.dropWhile isCRLF).reverse⟩

/-- The write end of the `strings.Builder` that `ReadAll` passes to `Copy`
as the destination: a `*strings.Builder` is not an `io.Closer`. -/
def builderWEnd : WEnd := ⟨false, none⟩

/-- Embeds `ReadAll(r, f...)`: runs `Copy` into a `strings.Builder` and,
on success, returns the accumulated string with trailing carriage returns
and newlines trimmed; on failure, returns the empty string and `Copy`'s
error.  `buf` is the text the pipeline wrote into the builder, which, like
the byte transfers themselves, is determined by the caller-supplied
streams. -/
def ReadAll (src : StreamId) (fil : List RWStream)
    (xfer : Nat → Int × Option GoError) (buf : String) :
    String × Option copyError :=
  match (Copy builderWEnd src fil xfer).2 with
  | some e => ("", some e)
  | none => (goTrimRightCRLF buf, none)

/-! ### Spec-side rendering

The spec describes the combined message as each stage's descriptor followed
by a tab-indented error message whose embedded newlines are re-indented by
a tab (or a literal success marker), entries joined by a blank line.  The
following definitions state that rendering the spec's way — indent every
line of the message by a tab — to be compared with the source's
`copyError.Error` above. -/

/-- Splits a character list at newlines, the spec's notion of the lines of
an error message. -/
def splitNlL : List Char → List (List Char)
  | [] => [[]]
  | c :: r =>
    if c = '\n' then [] :: splitNlL r
    else
      match splitNlL r with
      | [] => [[c]]
      | h :: t => (c :: h) :: t

/-- Joins chunks with a separator. -/
def joinSepL (sep : List Char) : List (List Char) → List Char
  | [] => []
  | [x] => x
  | x :: xs => x ++ sep ++ joinSepL sep xs

/-- The spec's tab indentation: every line of the message, the first
included, is preceded by a tab. -/
def specIndent (s : String) : String :=
  ⟨joinSepL ['\n'] ((splitNlL s.data).map (fun line => '\t' :: line))⟩

/-- One stage entry the spec's way: the descriptor, a newline, then the
tab-indented message, or the literal success marker when the stage had no
error. -/
def specEntry (r : copyResult) : String :=
  match r.err with
  | some err => r.cmd ++ "\n" ++ specIndent err.msg
  | none => r.cmd ++ "\n" ++ "\t<success>"

/-! ### Helper lemmas -/

lemma foldl_set_range {α : Type} (g : Nat → α) :
    ∀ (n : Nat) (init : List α), n ≤ init.length →
      (List.range n).foldl (fun acc i => acc.set i (g i)) init
        = (List.range n).map g ++ init.drop n := by
  intro n
  induction n with
  | zero => simp
  | succ n ih =>
    intro init hlen
    have hn : n < init.length := Nat.lt_of_succ_le hlen
    rw [List.range_succ, List.foldl_append, List.map_append,
      ih init (Nat.le_of_succ_le hlen)]
    simp only [List.foldl_cons, List.foldl_nil, List.map_cons, List.map_nil]
    have hlg : ((List.range n).map g).length = n := by simp
    rw [List.set_append_right _ _ (by omega), hlg, Nat.sub_self,
      List.drop_eq_getElem_cons hn, List.set_cons_zero, List.append_assoc]
    simp

lemma foldl_add_if {p : Nat → Bool} {v : Nat → Int} :
    ∀ (l : List Nat) (a : Int),
      l.foldl (fun acc i => if p i then acc + v i else acc) a
        = a + ((l.filter p).map v).sum := by
  intro l
  induction l with
  | nil => simp
  | cons hd tl ih =>
    intro a
    by_cases h : p hd
    · simp [List.filter_cons, h, ih, Int.add_assoc]
    · simp [List.filter_cons, h, ih]

lemma errIs_self (e : GoError) : errIs e e = true := by
  cases e <;> simp [errIs]

lemma errorsJoin_some_left (a : GoError) (c : Option GoError) :
    ∃ u, errorsJoin (some a) c = some u ∧ errIs u a = true := by
  cases c with
  | none => exact ⟨.join1 a, rfl, by simp [errIs, errIs_self]⟩
  | some b => exact ⟨.join2 a b, rfl, by simp [errIs, errIs_self]⟩

lemma copyResults_results (dst : WEnd) (src : StreamId)
    (fil : List RWStream) (xfer : Nat → Int × Option GoError) :
    (copyResults dst src fil xfer).results
      = (List.range (fil.length + 1)).map
          (fun idx => (runStage dst src fil xfer idx).res) := by
  unfold copyResults
  have lift : ∀ (idxs : List Nat) (l : List copyResult),
      (idxs.foldl
        (fun acc idx => acc.set idx (runStage dst src fil xfer idx).res)
        (⟨l⟩ : copyError)).results
      = idxs.foldl
          (fun acc idx => acc.set idx (runStage dst src fil xfer idx).res)
          l := by
    intro idxs
    induction idxs with
    | nil => intro l; rfl
    | cons hd tl ih => intro l; exact ih (l.set hd _)
  rw [lift, foldl_set_range _ _ _ (by simp)]
  simp

lemma copyTotal_eq (dst : WEnd) (src : StreamId) (fil : List RWStream)
    (xfer : Nat → Int × Option GoError) :
    copyTotal dst src fil xfer
      = (((List.range (fil.length + 1)).filter
            (fun idx => (xfer idx).2 = none)).map
          (fun idx => (xfer idx).1)).sum := by
  unfold copyTotal
  have hfun : (fun (acc : Int) (idx : Nat) =>
      match (runStage dst src fil xfer idx).counted with
      | some n => acc + n
      | none => acc)
      = fun acc idx =>
          if decide ((xfer idx).2 = none) then acc + (xfer idx).1
          else acc := by
    funext acc idx
    simp only [runStage]
    by_cases h : (xfer idx).2 = none <;> simp [h]
  rw [hfun, foldl_add_if]
  simp

lemma copy_some_eq (dst : WEnd) (src : StreamId) (fil : List RWStream)
    (xfer : Nat → Int × Option GoError) {e : copyError}
    (he : (Copy dst src fil xfer).2 = some e) :
    e = copyResults dst src fil xfer := by
  unfold Copy at he
  by_cases hg : (List.range (fil.length + 1)).any
      fun idx => (xfer idx).2.isSome
  · simp only [hg, if_true] at he
    exact (Option.some_inj.mp he).symm
  · simp [hg] at he

/-! ### Claims -/

/-- Claim C2: for every call to Copy with a destination, a source, and N
filter stages, the aggregate result contains exactly N+1 stage outcomes,
each written exactly once at the index equal to its stage's pipeline
position (the result at index idx is exactly what stage idx records),
ordered source-to-destination, and it is this fully populated aggregate
that Copy returns on failure. -/
theorem copy_results_complete (dst : WEnd) (src : StreamId)
    (fil : List RWStream) (xfer : Nat → Int × Option GoError) :
    (copyResults dst src fil xfer).results.length = fil.length + 1 ∧
    (∀ idx, idx < fil.length + 1 →
      (copyResults dst src fil xfer).results.getD idx zeroResult
        = (runStage dst src fil xfer idx).res) ∧
    (∀ e, (Copy dst src fil xfer).2 = some e →
      e = copyResults dst src fil xfer) := by
  refine ⟨by rw [copyResults_results]; simp, ?_, ?_⟩
  · intro idx h
    rw [copyResults_results]
    rw [List.getD_eq_getElem?_getD, List.getElem?_map, List.getElem?_range h]
    rfl
  · intro e he
    exact copy_some_eq dst src fil xfer he

/-- Witness for claim C2 at a concrete pipeline with one filter stage. -/
theorem copy_results_complete_witness :
    (copyResults ⟨false, none⟩ ⟨some "src", ""⟩
        [⟨⟨none, "pipe"⟩, ⟨true, none⟩⟩]
        (fun _ => (4, none))).results.length = 2 ∧
    (copyResults ⟨false, none⟩ ⟨some "src", ""⟩
        [⟨⟨none, "pipe"⟩, ⟨true, none⟩⟩]
        (fun _ => (4, none))).results.getD 1 zeroResult
      = (runStage ⟨false, none⟩ ⟨some "src", ""⟩
          [⟨⟨none, "pipe"⟩, ⟨true, none⟩⟩] (fun _ => (4, none)) 1).res := by
  obtain ⟨h1, h2, _⟩ := copy_results_complete ⟨false, none⟩ ⟨some "src", ""⟩
    [⟨⟨none, "pipe"⟩, ⟨true, none⟩⟩] (fun _ => (4, none))
  exact ⟨h1, h2 1 (by decide)⟩

/-- Claim C4: the byte count Copy returns equals the sum of the byte
counts of exactly those stages whose transfer completed without error; an
errored stage contributes nothing even if its io.Copy moved bytes, and
this holds whether the returned error is nil or not. -/
theorem copy_total_sums_successes (dst : WEnd) (src : StreamId)
    (fil : List RWStream) (xfer : Nat → Int × Option GoError) :
    (Copy dst src fil xfer).1
      = (((List.range (fil.length + 1)).filter
            (fun idx => (xfer idx).2 = none)).map
          (fun idx => (xfer idx).1)).sum := by
  exact copyTotal_eq dst src fil xfer

/-- Counterexample to claim C1 as stated: a pass-through pipeline with one
filter stage in which every transfer and close succeeds and moves 4 bytes;
the destination receives 4 bytes, but Copy returns 8 (the sum over both
stages), exactly as the repository's own pipeline test expects. -/
theorem copy_count_counterexample :
    (Copy ⟨false, none⟩ ⟨some "source", ""⟩
        [⟨⟨none, "pipe"⟩, ⟨true, none⟩⟩] (fun _ => (4, none))).2 = none ∧
    (Copy ⟨false, none⟩ ⟨some "source", ""⟩
        [⟨⟨none, "pipe"⟩, ⟨true, none⟩⟩] (fun _ => (4, none))).1 = 8 ∧
    destReceived [⟨⟨none, "pipe"⟩, ⟨true, none⟩⟩] (fun _ => (4, none)) = 4 ∧
    (Copy ⟨false, none⟩ ⟨some "source", ""⟩
        [⟨⟨none, "pipe"⟩, ⟨true, none⟩⟩] (fun _ => (4, none))).1
      ≠ destReceived [⟨⟨none, "pipe"⟩, ⟨true, none⟩⟩] (fun _ => (4, none)) := by
  refine ⟨rfl, rfl, rfl, by decide⟩

/-- Claim C1 (amended): if every stage's transfer and close succeed, Copy
returns a nil error and a byte count equal to the sum of the bytes
transferred by every stage; this equals the bytes received by the
destination only when there are no intermediate filters. -/
theorem copy_all_success_total (dst : WEnd) (src : StreamId)
    (fil : List RWStream) (xfer : Nat → Int × Option GoError)
    (hx : ∀ idx, idx < fil.length + 1 → (xfer idx).2 = none)
    (hc : ∀ idx, idx < fil.length + 1 →
      (stageWEnd dst fil idx).closer = true →
      (stageWEnd dst fil idx).closeErr = none) :
    (Copy dst src fil xfer).2 = none ∧
    (Copy dst src fil xfer).1
      = ((List.range (fil.length + 1)).map (fun idx => (xfer idx).1)).sum ∧
    (fil = [] → (Copy dst src fil xfer).1 = destReceived fil xfer) := by
  have herr : (Copy dst src fil xfer).2 = none := by
    unfold Copy
    simp only [List.any_eq_true, List.mem_range]
    rw [if_neg]
    rintro ⟨idx, hidx, hsome⟩
    rw [hx idx hidx] at hsome
    simp at hsome
  have hfilter : (List.range (fil.length + 1)).filter
      (fun idx => (xfer idx).2 = none) = List.range (fil.length + 1) := by
    apply List.filter_eq_self.mpr
    intro idx hidx
    simp [hx idx (List.mem_range.mp hidx)]
  refine ⟨herr, ?_, ?_⟩
  · rw [copy_total_sums_successes, hfilter]
  · intro hnil
    subst hnil
    rw [copy_total_sums_successes]
    simp [destReceived, List.filter, hx 0 (by omega)]

/-- Witness for the amended claim C1 at the same concrete pipeline as the
counterexample. -/
theorem copy_all_success_total_witness :
    (Copy ⟨false, none⟩ ⟨some "source", ""⟩
        [⟨⟨none, "pipe"⟩, ⟨true, none⟩⟩] (fun _ => (4, none))).2 = none ∧
    (Copy ⟨false, none⟩ ⟨some "source", ""⟩
        [⟨⟨none, "pipe"⟩, ⟨true, none⟩⟩] (fun _ => (4, none))).1
      = ((List.range 2).map
          (fun idx => ((fun (_ : Nat) => ((4 : Int), (none : Option GoError)))
            idx).1)).sum := by
  obtain ⟨h1, h2, _⟩ := copy_all_success_total ⟨false, none⟩
    ⟨some "source", ""⟩ [⟨⟨none, "pipe"⟩, ⟨true, none⟩⟩] (fun _ => (4, none))
    (fun _ _ => rfl)
    (by
      intro idx h hcl
      match idx, h with
      | 0, _ => rfl
      | 1, _ => rfl
      | n + 2, h => exact absurd h (by simp))
  exact ⟨h1, h2⟩

/-- Claim C3: after a stage's transfer finishes, successfully or not, its
output stream is closed exactly when it is closable, and the recorded
outcome error is the join of the transfer error and the close error; when
both occur, both remain reachable through the recorded error (neither is
discarded). -/
theorem stage_closes_and_joins (dst : WEnd) (src : StreamId)
    (fil : List RWStream) (xfer : Nat → Int × Option GoError) (idx : Nat) :
    (runStage dst src fil xfer idx).closedW
      = (stageWEnd dst fil idx).closer ∧
    (runStage dst src fil xfer idx).res.err
      = errorsJoin (xfer idx).2
          (if (stageWEnd dst fil idx).closer
           then (stageWEnd dst fil idx).closeErr else none) ∧
    (∀ a b, (xfer idx).2 = some a →
      (stageWEnd dst fil idx).closer = true →
      (stageWEnd dst fil idx).closeErr = some b →
      ∃ e, (runStage dst src fil xfer idx).res.err = some e ∧
        errIs e a = true ∧ errIs e b = true) := by
  refine ⟨rfl, rfl, ?_⟩
  intro a b ha hcl hce
  refine ⟨.join2 a b, ?_, ?_, ?_⟩
  · simp [runStage, ha, hcl, hce, errorsJoin]
  · simp [errIs, errIs_self]
  · simp [errIs, errIs_self]

/-- Witness for claim C3: a single-stage pipeline whose transfer fails
and whose closable destination also fails to close; both errors are
reachable in the recorded outcome. -/
theorem stage_closes_and_joins_witness :
    (runStage ⟨true, some (.base "close fail")⟩ ⟨some "src", ""⟩ []
        (fun _ => (0, some (.base "xfer fail"))) 0).closedW
      = (stageWEnd ⟨true, some (.base "close fail")⟩ [] 0).closer ∧
    (∃ e, (runStage ⟨true, some (.base "close fail")⟩ ⟨some "src", ""⟩ []
        (fun _ => (0, some (.base "xfer fail"))) 0).res.err = some e ∧
      errIs e (.base "xfer fail") = true ∧
      errIs e (.base "close fail") = true) := by
  obtain ⟨h1, _, h3⟩ := stage_closes_and_joins
    ⟨true, some (.base "close fail")⟩ ⟨some "src", ""⟩ []
    (fun _ => (0, some (.base "xfer fail"))) 0
  exact ⟨h1, h3 (.base "xfer fail") (.base "close fail") rfl rfl rfl⟩

/-- Claim C5: whenever Copy returns a non-nil error, unwrapping it yields
exactly the non-nil recorded per-stage errors in pipeline order, and an
errors.Is query against the original transfer error of any failed stage
succeeds. -/
theorem copy_error_unwrap_order (dst : WEnd) (src : StreamId)
    (fil : List RWStream) (xfer : Nat → Int × Option GoError)
    (e : copyError) (he : (Copy dst src fil xfer).2 = some e) :
    e.Unwrap = ((List.range (fil.length + 1)).map
        (fun idx => (runStage dst src fil xfer idx).res.err)).filterMap
          id ∧
    (∀ idx a, idx < fil.length + 1 → (xfer idx).2 = some a →
      copyErrIs e a = true) := by
  have hec := copy_some_eq dst src fil xfer he
  subst hec
  constructor
  · show (copyResults dst src fil xfer).results.filterMap (·.err) = _
    rw [copyResults_results, List.filterMap_map, List.filterMap_map]
    rfl
  · intro idx a hidx ha
    obtain ⟨u, hju, hia⟩ := errorsJoin_some_left a
      (if (stageWEnd dst fil idx).closer
       then (stageWEnd dst fil idx).closeErr else none)
    have herr : (runStage dst src fil xfer idx).res.err = some u := by
      show errorsJoin (xfer idx).2 _ = some u
      rw [ha]
      exact hju
    have hmem : u ∈ (copyResults dst src fil xfer).Unwrap := by
      apply List.mem_filterMap.mpr
      refine ⟨(runStage dst src fil xfer idx).res, ?_, herr⟩
      rw [copyResults_results]
      exact List.mem_map.mpr ⟨idx, List.mem_range.mpr hidx, rfl⟩
    exact List.any_eq_true.mpr ⟨u, hmem, hia⟩

/-- Witness for claim C5: a one-stage pipeline whose transfer fails with a
base error; Copy returns a non-nil aggregate, its unwrap list is as
described, and errors.Is against the original error succeeds. -/
theorem copy_error_unwrap_order_witness :
    (⟨[⟨"src", some (.join1 (.base "boom"))⟩]⟩ : copyError).Unwrap
      = ((List.range 1).map
          (fun idx => (runStage ⟨false, none⟩ ⟨some "src", ""⟩ []
            (fun _ => (0, some (.base "boom"))) idx).res.err)).filterMap
            id ∧
    copyErrIs ⟨[⟨"src", some (.join1 (.base "boom"))⟩]⟩ (.base "boom")
      = true := by
  obtain ⟨h1, h2⟩ := copy_error_unwrap_order ⟨false, none⟩ ⟨some "src", ""⟩
    [] (fun _ => (0, some (.base "boom")))
    ⟨[⟨"src", some (.join1 (.base "boom"))⟩]⟩ rfl
  exact ⟨h1, h2 0 (.base "boom") (by decide) rfl⟩

lemma splitNlL_ne_nil (cs : List Char) : splitNlL cs ≠ [] := by
  cases cs with
  | nil => simp [splitNlL]
  | cons c r =>
    by_cases hc : c = '\n'
    · simp [splitNlL, hc]
    · simp only [splitNlL, if_neg hc]
      rcases splitNlL r with _ | ⟨h, t⟩ <;> simp

lemma joinSepL_cons (sep l : List Char) (rest : List (List Char)) :
    joinSepL sep (l :: rest)
      = l ++ (match rest with
              | [] => []
              | _ :: _ => sep ++ joinSepL sep rest) := by
  cases rest <;> simp [joinSepL]

lemma joinSepL_pair (sep x y : List Char) (ys : List (List Char)) :
    joinSepL sep (x :: y :: ys) = x ++ sep ++ joinSepL sep (y :: ys) := rfl

lemma indent_eq (cs : List Char) :
    '\t' :: replaceNlTabL cs
      = joinSepL ['\n'] ((splitNlL cs).map (fun line => '\t' :: line)) := by
  induction cs with
  | nil => rfl
  | cons c r ih =>
    rcases hsp : splitNlL r with _ | ⟨h, t⟩
    · exact absurd hsp (splitNlL_ne_nil r)
    · by_cases hc : c = '\n'
      · subst hc
        rw [hsp] at ih
        simp only [List.map_cons] at ih
        have h1 : replaceNlTabL ('\n' :: r)
            = '\n' :: '\t' :: replaceNlTabL r := by
          simp [replaceNlTabL]
        have h2 : splitNlL ('\n' :: r) = [] :: splitNlL r := by
          simp [splitNlL]
        rw [h1, h2, hsp]
        simp only [List.map_cons]
        rw [joinSepL_pair, ← ih]
        rfl
      · have hih := ih
        rw [hsp] at hih
        simp only [List.map_cons] at hih
        rw [joinSepL_cons] at hih
        have htail := congrArg List.tail hih
        simp only [List.cons_append, List.tail_cons] at htail
        have h1 : replaceNlTabL (c :: r) = c :: replaceNlTabL r := by
          simp [replaceNlTabL, hc]
        have h2 : splitNlL (c :: r) = (c :: h) :: t := by
          simp [splitNlL, hc, hsp]
        rw [h1, h2]
        simp only [List.map_cons]
        rw [joinSepL_cons, htail]
        simp

lemma specIndent_eq (s : String) : "\t" ++ goReplaceNlTab s = specIndent s := by
  apply String.ext
  rw [String.data_append]
  show '\t' :: replaceNlTabL s.data = _
  exact indent_eq s.data

/-- Claim C6: the rendered aggregate message lists every stage in pipeline
order as the stage's descriptor followed by either its tab-indented error
message (every line of the message, embedded newlines included, indented
by a tab) or the literal marker for success, with consecutive entries
joined by a blank line. -/
theorem copy_error_message_render (e : copyError) :
    e.Error = String.intercalate "\n\n" (e.results.map specEntry) := by
  unfold copyError.Error
  congr 1
  apply List.map_congr_left
  intro r _
  cases hre : r.err with
  | none =>
    simp only [specEntry, hre]
    rw [String.append_assoc]
    congr 1
  | some err =>
    simp only [specEntry, hre]
    rw [← specIndent_eq, String.append_assoc, String.append_assoc,
      ← String.append_assoc "\n" "\t"]
    congr 2

lemma rdrop_rtake (p : Char → Bool) (l : List Char) :
    l.rdropWhile p ++ l.rtakeWhile p = l := by
  rw [List.rdropWhile, List.rtakeWhile, ← List.reverse_append,
    List.takeWhile_append_dropWhile, List.reverse_reverse]

/-- Claim C7: for a filter wrapping a writable command handle, ReadFrom
copies the source into the handle's writable input and then closes that
input; the copy error, if any, is the error reported, a close failure is
reported only when the copy succeeded, and the returned count is the
number of bytes copied. -/
theorem filter_readfrom_drain_close (f : filter)
    (copyOut : Int × Option GoError) (hw : f.buf.write.isSome = true) :
    (f.ReadFrom copyOut).closedInput = true ∧
    (f.ReadFrom copyOut).n = copyOut.1 ∧
    (∀ e, copyOut.2 = some e → (f.ReadFrom copyOut).err = some e) ∧
    (copyOut.2 = none → (f.ReadFrom copyOut).err = f.buf.closeErr) := by
  obtain ⟨wb, hwb⟩ := Option.isSome_iff_exists.mp hw
  simp only [filter.ReadFrom, hwb]
  refine ⟨trivial, trivial, ?_, ?_⟩
  · intro e he
    rw [he]
  · intro he
    rw [he]

/-- Witness for claim C7: a writable handle whose close fails; after a
successful copy of 7 bytes, ReadFrom reports the close error, the byte
count, and has closed the input. -/
theorem filter_readfrom_drain_close_witness :
    ((⟨⟨some (fun _ => (0, none)), some (.base "close fail")⟩⟩ :
        filter).ReadFrom (7, none)).closedInput = true ∧
    ((⟨⟨some (fun _ => (0, none)), some (.base "close fail")⟩⟩ :
        filter).ReadFrom (7, none)).n = 7 ∧
    ((⟨⟨some (fun _ => (0, none)), some (.base "close fail")⟩⟩ :
        filter).ReadFrom (7, none)).err = some (.base "close fail") := by
  obtain ⟨h1, h2, _, h4⟩ := filter_readfrom_drain_close
    ⟨⟨some (fun _ => (0, none)), some (.base "close fail")⟩⟩ (7, none) rfl
  exact ⟨h1, h2, h4 rfl⟩

/-- Claim C9: writing to a filter whose handle does not support writing
returns the ReadOnly error with zero bytes written. -/
theorem filter_write_readonly (f : filter) (p : List UInt8)
    (h : f.buf.write = none) :
    f.Write p = (0, some ErrReadOnly) := by
  simp [filter.Write, h]

/-- Witness for claim C9 on a concrete read-only filter. -/
theorem filter_write_readonly_witness :
    (⟨⟨none, none⟩⟩ : filter).Write [1, 2, 3] = (0, some ErrReadOnly) :=
  filter_write_readonly ⟨⟨none, none⟩⟩ [1, 2, 3] rfl

/-- Claim C10: when the underlying Copy fails, ReadAll returns the empty
string together with Copy's error, discarding whatever the pipeline had
already written into the in-memory sink. -/
theorem readall_discards_on_error (src : StreamId) (fil : List RWStream)
    (xfer : Nat → Int × Option GoError) (buf : String) (e : copyError)
    (h : (Copy builderWEnd src fil xfer).2 = some e) :
    ReadAll src fil xfer buf = ("", some e) := by
  simp [ReadAll, h]

/-- Witness for claim C10: a one-stage pipeline that fails after the sink
already holds text; ReadAll discards it. -/
theorem readall_discards_on_error_witness :
    ReadAll ⟨some "src", ""⟩ [] (fun _ => (3, some (.base "boom"))) "part"
      = ("", some ⟨[⟨"src", some (.join1 (.base "boom"))⟩]⟩) :=
  readall_discards_on_error ⟨some "src", ""⟩ []
    (fun _ => (3, some (.base "boom"))) "part"
    ⟨[⟨"src", some (.join1 (.base "boom"))⟩]⟩ rfl

/-- Claim C8: on success, ReadAll returns the drained text with only the
trailing run of carriage-return and line-feed characters stripped: the
drained text is the result followed by a run of CR/LF characters, the
result does not end in CR or LF, text ending in a space or tab is returned
unchanged, and empty input yields the empty string. -/
theorem readall_trims_trailing_crlf (src : StreamId) (fil : List RWStream)
    (xfer : Nat → Int × Option GoError) (buf : String)
    (h : (Copy builderWEnd src fil xfer).2 = none) :
    (∃ junk, buf.data = (ReadAll src fil xfer buf).1.data ++ junk ∧
      ∀ c ∈ junk, c = '\r' ∨ c = '\n') ∧
    (∀ c, (ReadAll src fil xfer buf).1.data.getLast? = some c →
      ¬(c = '\r' ∨ c = '\n')) ∧
    ((buf.data.getLast? = some ' ' ∨ buf.data.getLast? = some '\t') →
      (ReadAll src fil xfer buf).1 = buf) ∧
    (buf = "" → (ReadAll src fil xfer buf).1 = "") := by
  have hout : (ReadAll src fil xfer buf).1 = goTrimRightCRLF buf := by
    simp [ReadAll, h]
  have hdata : (ReadAll src fil xfer buf).1.data
      = buf.data.rdropWhile isCRLF := by
    rw [hout]; rfl
  refine ⟨⟨buf.data.rtakeWhile isCRLF, ?_, ?_⟩, ?_, ?_, ?_⟩
  · rw [hdata]
    exact (rdrop_rtake isCRLF buf.data).symm
  · intro c hc
    have hp := List.mem_rtakeWhile_imp hc
    simpa [isCRLF] using hp
  · intro c hc
    rw [hdata] at hc
    have hne : buf.data.rdropWhile isCRLF ≠ [] := by
      intro hnil
      rw [hnil] at hc
      simp at hc
    have hlast := List.rdropWhile_last_not isCRLF buf.data hne
    have hsome := List.getLast?_eq_getLast (buf.data.rdropWhile isCRLF) hne
    rw [hc] at hsome
    have hceq : c = (buf.data.rdropWhile isCRLF).getLast hne :=
      Option.some_inj.mp hsome
    rw [hceq]
    simpa [isCRLF] using hlast
  · intro hsp
    apply String.ext
    rw [hdata]
    apply List.rdropWhile_eq_self_iff.mpr
    intro hne
    have hsome := List.getLast?_eq_getLast buf.data hne
    rcases hsp with h1 | h1 <;>
    · rw [h1] at hsome
      have hceq := Option.some_inj.mp hsome
      rw [← hceq]
      decide
  · intro hbuf
    subst hbuf
    rw [hout]
    rfl

/-- Witness for claim C8 on concrete drained text with trailing spaces and
a trailing CR/LF run, through a successful one-stage pipeline. -/
theorem readall_trims_trailing_crlf_witness :
    (∃ junk, ("hi \n\r\n" : String).data
        = (ReadAll ⟨some "src", ""⟩ [] (fun _ => (6, none))
            "hi \n\r\n").1.data ++ junk ∧
      ∀ c ∈ junk, c = '\r' ∨ c = '\n') ∧
    (∀ c, (ReadAll ⟨some "src", ""⟩ [] (fun _ => (6, none))
        "hi \n\r\n").1.data.getLast? = some c → ¬(c = '\r' ∨ c = '\n')) := by
  obtain ⟨h1, h2, _, _⟩ := readall_trims_trailing_crlf ⟨some "src", ""⟩ []
    (fun _ => (6, none)) "hi \n\r\n" rfl
  exact ⟨h1, h2⟩
